import Mathlib

/-!
Verification development for the clickhouse-js connection transport and
client facade.

The definitions below are shallow embeddings of the TypeScript source:

* `src/src/connection/adapter/base_http_adapter.ts` - the HTTP request
  transport (`BaseHttpAdapter.request`, `ping`, `query`, `exec`, `insert`,
  `getQueryId`, and the free functions `decompressResponse`,
  `isSuccessfulResponse`).
* `src/packages/client-common/src/client.ts` - the client facade
  (`ClickHouseClient.query`, `exec`, `insert`, `ping`,
  `withClientQueryParams`, and the free functions `formatQuery`,
  `removeTrailingSemi`, `getInsertQuery`).

Node.js streams are modelled abstractly (`RStream`), promises by a
settle-once `Option Outcome` cell, and the event-driven request lifecycle
by an explicit step function over event lists.
-/

/-- Abstract model of a Node.js readable byte stream as it appears in the
response path: either the raw incoming response body, or that body wrapped
in a gunzip transform by `Stream.pipeline(response, Zlib.createGunzip(), cb)`. -/
inductive RStream
  | body
  | gunzip (s : RStream)
deriving DecidableEq

/-- Failure kinds produced by the request transport, mirroring the errors
constructed in `base_http_adapter.ts`: transport errors from the request
`error` event, classified server errors from a non-2xx body (`parseError`),
unsupported content-encoding errors, the abort rejection, and the idle
timeout rejection. -/
inductive FailKind
  | transport
  | server
  | encoding (msg : String)
  | aborted
  | timedOut
deriving DecidableEq

/-- Settlement value of one HTTP exchange: a readable byte stream on
success or a single failure value. -/
inductive Outcome
  | success (s : RStream)
  | failure (k : FailKind)
deriving DecidableEq

/-- Model of `isSuccessfulResponse(statusCode?: number)`:
`Boolean(statusCode && 200 <= statusCode && statusCode < 300)`.
An absent status code is falsy. -/
def isSuccessfulResponse (statusCode : Option Nat) : Bool :=
  match statusCode with
  | none => false
  | some c => decide (200 ≤ c) && decide (c < 300)

/-- Model of the free function `decompressResponse(response)`.  Branches
only on the `content-encoding` response header: `gzip` wraps the body in a
gunzip pipeline, any other declared encoding is an error whose message is
the string `Unexpected encoding: ` followed by the encoding, and an absent
header passes the raw response through. -/
def decompressResponse (encoding : Option String) : Except String RStream :=
  match encoding with
  | some e =>
    if e = "gzip" then Except.ok (RStream.gunzip RStream.body)
    else Except.error ("Unexpected encoding: " ++ e)
  | none => Except.ok RStream.body

/-- Model of the outcome computed by the `onResponse` handler inside
`BaseHttpAdapter.request`: first `decompressResponse` is consulted (a
decompression error rejects immediately, before the status check), then a
2xx status resolves with the (possibly wrapped) stream and any other
status rejects with the classified server error parsed from the body. -/
def onResponseOutcome (status : Option Nat) (encoding : Option String) : Outcome :=
  match decompressResponse encoding with
  | Except.error e => Outcome.failure (FailKind.encoding e)
  | Except.ok stream =>
    if isSuccessfulResponse status then Outcome.success stream
    else Outcome.failure FailKind.server

/-- Model of the `RequestParams` flags relevant to the response path.
`decompress_response` only influences the outbound `Accept-Encoding`
header built by `getHeaders`; it is in scope in the `onResponse` closure
but never read there. -/
structure RequestParamsM where
  decompress_response : Bool
  compress_request : Bool
  hasAbortSignal : Bool
deriving DecidableEq

/-- The response-processing phase of `BaseHttpAdapter.request` for a
response with the given status code and `content-encoding` header, under
the given request params.  Translated from the `onResponse` closure: the
request params' `decompress_response` flag does not occur in that closure,
so the result does not depend on it. -/
def respondPhase (_params : RequestParamsM) (status : Option Nat)
    (encoding : Option String) : Outcome :=
  onResponseOutcome status encoding

/-- Observation: did the transport wrap the settled stream in a gunzip
decompression pipeline? -/
def decompressionApplied : Outcome → Bool
  | Outcome.success (RStream.gunzip _) => true
  | _ => false

/-- State of one in-flight exchange inside `BaseHttpAdapter.request`:
the promise cell (`settled`, with `settleWrites` counting how many times a
`resolve`/`reject` actually landed), which listeners are currently
attached (`socketOn`/`responseOn`/`errorOn`/`closeOn` on the request,
`abortOn` on the abort signal, `swallowOn` for the one-shot noop error
listener registered by `onAbort`), whether a socket has been assigned and
its idle timeout armed, and whether an `error` event ever fired with no
listener attached (`uncaughtError`). -/
structure ReqState where
  settled : Option Outcome
  settleWrites : Nat
  socketOn : Bool
  responseOn : Bool
  errorOn : Bool
  closeOn : Bool
  abortOn : Bool
  swallowOn : Bool
  hasSocket : Bool
  timeoutArmed : Bool
  uncaughtError : Bool
deriving DecidableEq

/-- State right after `BaseHttpAdapter.request` registers its listeners:
`socket`, `response`, `error` and `close` listeners on the request, plus
an `abort` listener on the signal when one was supplied. -/
def initState (hasAbortSignal : Bool) : ReqState :=
  { settled := none
    settleWrites := 0
    socketOn := true
    responseOn := true
    errorOn := true
    closeOn := true
    abortOn := hasAbortSignal
    swallowOn := false
    hasSocket := false
    timeoutArmed := false
    uncaughtError := false }

/-- JavaScript promise settlement: the first `resolve`/`reject` wins and
every later call is a no-op. -/
def trySettle (s : ReqState) (o : Outcome) : ReqState :=
  match s.settled with
  | none => { s with settled := some o, settleWrites := s.settleWrites + 1 }
  | some _ => s

/-- Model of the `removeRequestListeners` closure: resets the socket idle
timeout and detaches the socket `timeout` handler when a socket is
present, and removes the `socket`, `response`, `error` and `close`
listeners from the request.  The source also calls
`request.removeListener` for the abort handler, but that handler was
registered on the abort signal, not on the request, so the signal listener
stays attached (it is one-shot via the `once` option). -/
def removeRequestListeners (s : ReqState) : ReqState :=
  { s with
    timeoutArmed := if s.hasSocket then false else s.timeoutArmed
    socketOn := false
    responseOn := false
    errorOn := false
    closeOn := false }

/-- The independent event sources racing inside one exchange: socket
acquisition, response headers (with status code and content-encoding),
the request `error` event, the abort signal firing, the socket idle
timeout firing, and the request `close` event. -/
inductive Event
  | socketEv
  | responseEv (status : Option Nat) (encoding : Option String)
  | errorEv
  | abortEv
  | timeoutEv
  | closeEv
deriving DecidableEq

/-- One event dispatch, translated handler by handler from
`BaseHttpAdapter.request`:

* `socketEv` runs `onSocket` if the `socket` listener is attached: forces
  keep-alive and arms the idle timeout.
* `responseEv` runs `onResponse` if attached: settles with the outcome of
  decompression plus status classification (listeners are intentionally
  not removed here; that is deferred to the `close` event).
* `errorEv` runs `onError` (detach all, reject) if attached; otherwise the
  one-shot noop listener registered by `onAbort` consumes it; otherwise
  the `error` event is unhandled.
* `abortEv` runs `onAbort` if the signal listener is attached: detaches
  request listeners, registers the one-shot noop `error` listener, and
  rejects with the cancellation error; the signal listener itself is
  one-shot.
* `timeoutEv` runs `onTimeout` if the idle timeout is armed: detaches
  request listeners, destroys the request, and rejects with the timeout
  error.
* `closeEv` runs `onClose` if attached: detaches request listeners only,
  never settling. -/
def step (s : ReqState) (e : Event) : ReqState :=
  match e with
  | Event.socketEv =>
    if s.socketOn then { s with hasSocket := true, timeoutArmed := true } else s
  | Event.responseEv status encoding =>
    if s.responseOn then trySettle s (onResponseOutcome status encoding) else s
  | Event.errorEv =>
    if s.errorOn then trySettle (removeRequestListeners s) (Outcome.failure FailKind.transport)
    else if s.swallowOn then { s with swallowOn := false }
    else { s with uncaughtError := true }
  | Event.abortEv =>
    if s.abortOn then
      trySettle
        { removeRequestListeners s with abortOn := false, swallowOn := true }
        (Outcome.failure FailKind.aborted)
    else s
  | Event.timeoutEv =>
    if s.timeoutArmed then
      trySettle (removeRequestListeners s) (Outcome.failure FailKind.timedOut)
    else s
  | Event.closeEv =>
    if s.closeOn then removeRequestListeners s else s

/-- Run one exchange of `BaseHttpAdapter.request` against a sequence of
events, starting from the freshly registered listeners. -/
def run (hasAbortSignal : Bool) (evs : List Event) : ReqState :=
  evs.foldl step (initState hasAbortSignal)

/-- Model of `BaseHttpAdapter.ping`: it awaits `this.request(...)` with no
try/catch, destroys the stream, and returns `true`.  A rejected exchange
therefore propagates as a rejection of `ping` itself. -/
def connPing (exchange : Except FailKind RStream) : Except FailKind Bool :=
  match exchange with
  | Except.ok _ => Except.ok true
  | Except.error e => Except.error e

/-- Model of `BaseHttpAdapter.getQueryId`:
`params.query_id || uuid.v4()`.  In JavaScript both `undefined` and the
empty string are falsy, so either selects the generated identifier. -/
def getQueryId (query_id : Option String) (generated : String) : String :=
  match query_id with
  | some s => if s = "" then generated else s
  | none => generated

/-- JavaScript `String.prototype.trim` whitespace test, restricted to the
whitespace characters relevant to SQL statements. -/
def isJsWhitespace (c : Char) : Bool :=
  c = ' ' || c = '\t' || c = '\n' || c = '\r'

/-- Model of `query.trim()` on a statement represented as a character
list: drop whitespace from both ends. -/
def trimChars (q : List Char) : List Char :=
  ((q.dropWhile isJsWhitespace).reverse.dropWhile isJsWhitespace).reverse

/-- The loop inside `removeTrailingSemi`: starting from index `i` (the JS
loop variable), walk down while the character just below the index is a
semicolon; on the first non-semicolon the loop breaks and records the
current index; if the loop falls through to zero the recorded index keeps
its initial value `query.length`. -/
def lastNonSemiIdx (q : List Char) : Nat → Nat
  | 0 => q.length
  | j + 1 => if q[j]? = some ';' then lastNonSemiIdx q j else j + 1

/-- Model of the free function `removeTrailingSemi(query)` in
`client.ts`: run the loop from `query.length`, and slice the statement at
the recorded index only when that index differs from `query.length`. -/
def removeTrailingSemi (q : List Char) : List Char :=
  let idx := lastNonSemiIdx q q.length
  if idx ≠ q.length then q.take idx else q

/-- Model of the free function `formatQuery(query, format)`: trim, strip
trailing semicolons, then append a space, a newline, the literal word
FORMAT, a space, and the format name. -/
def formatQuery (query : List Char) (format : List Char) : List Char :=
  removeTrailingSemi (trimChars query) ++ " \nFORMAT ".toList ++ format

/-- Statement sent to the connection by `ClickHouseClient.query`: the
requested format, or the default `JSON` when none was supplied
(`params.format ?? 'JSON'`), is appended by `formatQuery`. -/
def clientQueryStatement (query : List Char) (format : Option (List Char)) : List Char :=
  formatQuery query (format.getD "JSON".toList)

/-- Statement sent to the connection by `ClickHouseClient.exec`:
`removeTrailingSemi(params.query.trim())`, with no format clause. -/
def execStatement (query : List Char) : List Char :=
  removeTrailingSemi (trimChars query)

/-- The reference strip used to state what maximal trailing-separator
removal means: drop the maximal run of semicolons from the end of the
statement.  Modelled from the spec: trailing-separator stripping must
remove a maximal run, not a single occurrence. -/
def stripTrailingSemisSpec (q : List Char) : List Char :=
  (q.reverse.dropWhile (fun c => c = ';')).reverse

/-- The runtime shapes an `InsertParams.columns` value can take: an array
of column names, or an object carrying an `except` list (recognized by
`isInsertColumnsExcept` via a `hasOwnProperty` check). -/
inductive InsertColumnsM
  | columnsArr (cols : List String)
  | columnsExcept (cols : List String)
deriving DecidableEq

/-- Model of the free function `getInsertQuery(params, format)`: an array
of columns with positive length renders a parenthesized column list; an
`except` object with a non-empty list renders a `* EXCEPT` clause; every
other case (no columns, an empty array - which also fails the
`isInsertColumnsExcept` check - or an empty `except` list) renders no
column clause.  The table name is trimmed in the template. -/
def getInsertQuery (table : String) (columns : Option InsertColumnsM)
    (format : String) : String :=
  let columnsPart :=
    match columns with
    | none => ""
    | some (InsertColumnsM.columnsArr cols) =>
      if 0 < cols.length then " (" ++ String.intercalate ", " cols ++ ")" else ""
    | some (InsertColumnsM.columnsExcept cols) =>
      if 0 < cols.length then " (* EXCEPT (" ++ String.intercalate ", " cols ++ "))" else ""
  "INSERT INTO " ++ table.trim ++ columnsPart ++ " FORMAT " ++ format

/-- The runtime shapes of `InsertParams.values`: a finite in-memory array,
a stream, or one of the structured JSON containers.  Only the array shape
satisfies `Array.isArray`. -/
inductive InsertValuesM (T : Type)
  | arr (xs : List T)
  | stream
  | inputJSON
  | inputJSONObjectEachRow
deriving DecidableEq

/-- The guard of the insert short-circuit:
`Array.isArray(params.values) && params.values.length === 0`. -/
def isEmptyArrayValues {T : Type} : InsertValuesM T → Bool
  | InsertValuesM.arr xs => xs.isEmpty
  | _ => false

/-- Model of `params.format || 'JSONCompactEachRow'`: JavaScript `||`
falls back on any falsy value, so both an absent format and the empty
string select the default. -/
def effectiveInsertFormat (format : Option String) : String :=
  match format with
  | some f => if f = "" then "JSONCompactEachRow" else f
  | none => "JSONCompactEachRow"

/-- Result value of `ClickHouseClient.insert` as far as the claims are
concerned: the `executed` flag and the `query_id`. -/
structure InsertResultM where
  executed : Bool
  query_id : String
deriving DecidableEq

/-- What `ClickHouseClient.insert` does with the network: either it
returns without calling the connection at all, or it calls
`connection.insert` with the generated statement. -/
inductive InsertCall
  | noCall (result : InsertResultM)
  | network (statement : String) (result : InsertResultM)
deriving DecidableEq

/-- Model of `ClickHouseClient.insert`: an empty in-memory array returns
the short-circuit result with no network call; otherwise the values are
validated and encoded by the injected values encoder (an external
collaborator, not modelled) and `connection.insert` is called with the
statement from `getInsertQuery`; the connection result (whose `query_id`
comes from `getQueryId`, with `generated` standing for the fresh UUID) is
overlaid with `executed := true`. -/
def clientInsert {T : Type} (table : String) (values : InsertValuesM T)
    (columns : Option InsertColumnsM) (format : Option String)
    (query_id : Option String) (generated : String) : InsertCall :=
  if isEmptyArrayValues values then
    InsertCall.noCall { executed := false, query_id := "" }
  else
    InsertCall.network
      (getInsertQuery table columns (effectiveInsertFormat format))
      { executed := true, query_id := getQueryId query_id generated }

/-- JavaScript object spread on settings maps, represented as association
lists keyed by setting name: in a spread the later object wins, so on
lookup the overriding list is consulted first. -/
def objSpread (base overrides : List (String × String)) : List (String × String) :=
  overrides ++ base

/-- The per-call parameter bag handled by
`ClickHouseClient.withClientQueryParams`. -/
structure BaseQueryParamsM where
  clickhouse_settings : List (String × String)
  query_params : List (String × String)
  abort_signal : Bool
  query_id : Option String
  session_id : Option String
deriving DecidableEq

/-- The client-level state consulted by `withClientQueryParams`: the
settings constructed from the connection params at client construction,
and the session id fixed at construction. -/
structure ClientState where
  clientClickHouseSettings : List (String × String)
  sessionId : Option String
deriving DecidableEq

/-- Model of `ClickHouseClient.withClientQueryParams`: spreads the
client-level settings under the per-call settings, passes the per-call
query params, abort signal and query id through, and always installs the
client's session id (the per-call `session_id` field is dropped). -/
def withClientQueryParams (c : ClientState) (params : BaseQueryParamsM) :
    BaseQueryParamsM :=
  { clickhouse_settings := objSpread c.clientClickHouseSettings params.clickhouse_settings
    query_params := params.query_params
    abort_signal := params.abort_signal
    query_id := params.query_id
    session_id := c.sessionId }

theorem removeRequestListeners_settled (s : ReqState) :
    (removeRequestListeners s).settled = s.settled := rfl

theorem removeRequestListeners_settleWrites (s : ReqState) :
    (removeRequestListeners s).settleWrites = s.settleWrites := rfl

theorem trySettle_of_some {s : ReqState} {o : Outcome} (o2 : Outcome)
    (h : s.settled = some o) : trySettle s o2 = s := by
  unfold trySettle
  rw [h]

theorem trySettle_of_none {s : ReqState} (o : Outcome) (h : s.settled = none) :
    trySettle s o = { s with settled := some o, settleWrites := s.settleWrites + 1 } := by
  unfold trySettle
  rw [h]

theorem settled_step_of_some {s : ReqState} {o : Outcome} (h : s.settled = some o)
    (e : Event) : (step s e).settled = some o := by
  cases e with
  | socketEv =>
    by_cases hs : s.socketOn <;> simp [step, hs, h]
  | responseEv status encoding =>
    by_cases hs : s.responseOn <;> simp [step, hs, trySettle_of_some _ h, h]
  | errorEv =>
    by_cases hs : s.errorOn
    · have hr : (removeRequestListeners s).settled = some o := by
        rw [removeRequestListeners_settled, h]
      simp [step, hs, trySettle_of_some _ hr, hr]
    · by_cases hw : s.swallowOn <;> simp [step, hs, hw, h]
  | abortEv =>
    by_cases hs : s.abortOn
    · have hr : ({ removeRequestListeners s with
          abortOn := false, swallowOn := true } : ReqState).settled = some o := by
        simpa [removeRequestListeners] using h
      simp [step, hs, trySettle_of_some _ hr, hr]
    · simp [step, hs, h]
  | timeoutEv =>
    by_cases hs : s.timeoutArmed
    · have hr : (removeRequestListeners s).settled = some o := by
        rw [removeRequestListeners_settled, h]
      simp [step, hs, trySettle_of_some _ hr, hr]
    · simp [step, hs, h]
  | closeEv =>
    by_cases hs : s.closeOn <;> simp [step, hs, removeRequestListeners, h]

theorem settled_foldl_of_some {o : Outcome} :
    ∀ (l : List Event) (s : ReqState), s.settled = some o →
      (l.foldl step s).settled = some o := by
  intro l
  induction l with
  | nil => intro s h; simpa using h
  | cons e t ih =>
    intro s h
    simpa using ih (step s e) (settled_step_of_some h e)

/-- Promise bookkeeping invariant: the number of settlement writes that
actually landed is 0 while the promise is pending and 1 once it holds a
value. -/
def WritesInv (s : ReqState) : Prop :=
  (s.settled = none → s.settleWrites = 0) ∧
  (∀ o, s.settled = some o → s.settleWrites = 1)

theorem writesInv_trySettle {s : ReqState} (h : WritesInv s) (o : Outcome) :
    WritesInv (trySettle s o) := by
  rcases hs : s.settled with _ | o2
  · rw [trySettle_of_none o hs]
    refine ⟨fun hn => by simp at hn, fun o3 _ => ?_⟩
    have h0 : s.settleWrites = 0 := h.1 hs
    simp [h0]
  · rw [trySettle_of_some o hs]
    exact h

theorem writesInv_step {s : ReqState} (h : WritesInv s) (e : Event) :
    WritesInv (step s e) := by
  cases e with
  | socketEv =>
    simp only [step]
    by_cases hs : s.socketOn
    · rw [if_pos hs]; exact h
    · rw [if_neg hs]; exact h
  | responseEv status encoding =>
    simp only [step]
    by_cases hs : s.responseOn
    · rw [if_pos hs]; exact writesInv_trySettle h _
    · rw [if_neg hs]; exact h
  | errorEv =>
    simp only [step]
    by_cases hs : s.errorOn
    · rw [if_pos hs]
      have h2 : WritesInv (removeRequestListeners s) := h
      exact writesInv_trySettle h2 _
    · rw [if_neg hs]
      by_cases hw : s.swallowOn
      · rw [if_pos hw]; exact h
      · rw [if_neg hw]; exact h
  | abortEv =>
    simp only [step]
    by_cases hs : s.abortOn
    · rw [if_pos hs]
      have h2 : WritesInv
          { removeRequestListeners s with abortOn := false, swallowOn := true } := h
      exact writesInv_trySettle h2 _
    · rw [if_neg hs]; exact h
  | timeoutEv =>
    simp only [step]
    by_cases hs : s.timeoutArmed
    · rw [if_pos hs]
      have h2 : WritesInv (removeRequestListeners s) := h
      exact writesInv_trySettle h2 _
    · rw [if_neg hs]; exact h
  | closeEv =>
    simp only [step]
    by_cases hs : s.closeOn
    · rw [if_pos hs]; exact h
    · rw [if_neg hs]; exact h

theorem writesInv_foldl :
    ∀ (l : List Event) (s : ReqState), WritesInv s → WritesInv (l.foldl step s) := by
  intro l
  induction l with
  | nil => intro s h; simpa using h
  | cons e t ih =>
    intro s h
    simpa using ih (step s e) (writesInv_step h e)

theorem writesInv_run (hasAbortSignal : Bool) (evs : List Event) :
    WritesInv (run hasAbortSignal evs) :=
  writesInv_foldl evs (initState hasAbortSignal)
    ⟨fun _ => rfl, fun o h => by simp [initState] at h⟩

theorem settled_trySettle_isSome (s : ReqState) (o : Outcome) :
    ∃ o2, (trySettle s o).settled = some o2 := by
  rcases hs : s.settled with _ | o2
  · exact ⟨o, by rw [trySettle_of_none o hs]⟩
  · exact ⟨o2, by rw [trySettle_of_some o hs]; exact hs⟩

/-- While the promise is pending and no `close` event has fired, the
`response`, `error` and `socket` listeners are still attached: the only
handler that detaches listeners without settling is `onClose`. -/
def ListenersLive (s : ReqState) : Prop :=
  s.settled = none → (s.responseOn = true ∧ s.errorOn = true ∧ s.socketOn = true)

theorem listenersLive_of_some {s : ReqState} (h : ∃ o, s.settled = some o) :
    ListenersLive s := by
  intro hn
  rcases h with ⟨o, ho⟩
  rw [hn] at ho
  exact absurd ho (by simp)

theorem listenersLive_step {s : ReqState} (h : ListenersLive s) {e : Event}
    (he : e ≠ Event.closeEv) : ListenersLive (step s e) := by
  cases e with
  | socketEv =>
    simp only [step]
    by_cases hs : s.socketOn
    · rw [if_pos hs]
      intro hn
      exact h hn
    · rw [if_neg hs]; exact h
  | responseEv status encoding =>
    simp only [step]
    by_cases hs : s.responseOn
    · rw [if_pos hs]
      exact listenersLive_of_some (settled_trySettle_isSome s _)
    · rw [if_neg hs]; exact h
  | errorEv =>
    simp only [step]
    by_cases hs : s.errorOn
    · rw [if_pos hs]
      exact listenersLive_of_some (settled_trySettle_isSome _ _)
    · rw [if_neg hs]
      by_cases hw : s.swallowOn
      · rw [if_pos hw]
        intro hn
        exact h hn
      · rw [if_neg hw]
        intro hn
        exact h hn
  | abortEv =>
    simp only [step]
    by_cases hs : s.abortOn
    · rw [if_pos hs]
      exact listenersLive_of_some (settled_trySettle_isSome _ _)
    · rw [if_neg hs]; exact h
  | timeoutEv =>
    simp only [step]
    by_cases hs : s.timeoutArmed
    · rw [if_pos hs]
      exact listenersLive_of_some (settled_trySettle_isSome _ _)
    · rw [if_neg hs]; exact h
  | closeEv => exact absurd rfl he

theorem listenersLive_foldl :
    ∀ (l : List Event) (s : ReqState), ListenersLive s → Event.closeEv ∉ l →
      ListenersLive (l.foldl step s) := by
  intro l
  induction l with
  | nil => intro s h _; simpa using h
  | cons e t ih =>
    intro s h hm
    have he : e ≠ Event.closeEv := fun heq => hm (heq ▸ List.mem_cons_self e t)
    have ht : Event.closeEv ∉ t := fun hmem => hm (List.mem_cons_of_mem e hmem)
    simpa using ih (step s e) (listenersLive_step h he) ht

/-- Once a socket has been acquired, either the exchange is settled or
the idle timeout is still armed: the only way to disarm the timeout
without settling is the `close` event. -/
def TimeoutLive (s : ReqState) : Prop :=
  (∃ o, s.settled = some o) ∨ s.timeoutArmed = true

theorem timeoutLive_step {s : ReqState} (h : TimeoutLive s) {e : Event}
    (he : e ≠ Event.closeEv) : TimeoutLive (step s e) := by
  rcases h with ⟨o, ho⟩ | ha
  · exact Or.inl ⟨o, settled_step_of_some ho e⟩
  cases e with
  | socketEv =>
    simp only [step]
    by_cases hs : s.socketOn
    · rw [if_pos hs]; exact Or.inr rfl
    · rw [if_neg hs]; exact Or.inr ha
  | responseEv status encoding =>
    simp only [step]
    by_cases hs : s.responseOn
    · rw [if_pos hs]; exact Or.inl (settled_trySettle_isSome s _)
    · rw [if_neg hs]; exact Or.inr ha
  | errorEv =>
    simp only [step]
    by_cases hs : s.errorOn
    · rw [if_pos hs]; exact Or.inl (settled_trySettle_isSome _ _)
    · rw [if_neg hs]
      by_cases hw : s.swallowOn
      · rw [if_pos hw]; exact Or.inr ha
      · rw [if_neg hw]; exact Or.inr ha
  | abortEv =>
    simp only [step]
    by_cases hs : s.abortOn
    · rw [if_pos hs]; exact Or.inl (settled_trySettle_isSome _ _)
    · rw [if_neg hs]; exact Or.inr ha
  | timeoutEv =>
    simp only [step]
    rw [if_pos ha]
    exact Or.inl (settled_trySettle_isSome _ _)
  | closeEv => exact absurd rfl he

theorem timeoutLive_foldl :
    ∀ (l : List Event) (s : ReqState), TimeoutLive s → Event.closeEv ∉ l →
      TimeoutLive (l.foldl step s) := by
  intro l
  induction l with
  | nil => intro s h _; simpa using h
  | cons e t ih =>
    intro s h hm
    have he : e ≠ Event.closeEv := fun heq => hm (heq ▸ List.mem_cons_self e t)
    have ht : Event.closeEv ∉ t := fun hmem => hm (List.mem_cons_of_mem e hmem)
    simpa using ih (step s e) (timeoutLive_step h he) ht

theorem trySettle_abortOn (s : ReqState) (o : Outcome) :
    (trySettle s o).abortOn = s.abortOn := by
  rcases hs : s.settled with _ | o2
  · rw [trySettle_of_none o hs]
  · rw [trySettle_of_some o hs]

/-- The abort-signal listener registered with the one-shot option is only
ever consumed by the abort event itself: `removeRequestListeners` targets
the request, not the signal. -/
theorem abortOn_step (s : ReqState) {e : Event} (he : e ≠ Event.abortEv) :
    (step s e).abortOn = s.abortOn := by
  cases e with
  | socketEv =>
    simp only [step]
    by_cases hs : s.socketOn
    · rw [if_pos hs]
    · rw [if_neg hs]
  | responseEv status encoding =>
    simp only [step]
    by_cases hs : s.responseOn
    · rw [if_pos hs]; exact trySettle_abortOn s _
    · rw [if_neg hs]
  | errorEv =>
    simp only [step]
    by_cases hs : s.errorOn
    · rw [if_pos hs]; exact trySettle_abortOn _ _
    · rw [if_neg hs]
      by_cases hw : s.swallowOn
      · rw [if_pos hw]
      · rw [if_neg hw]
  | abortEv => exact absurd rfl he
  | timeoutEv =>
    simp only [step]
    by_cases hs : s.timeoutArmed
    · rw [if_pos hs]; exact trySettle_abortOn _ _
    · rw [if_neg hs]
  | closeEv =>
    simp only [step]
    by_cases hs : s.closeOn
    · rw [if_pos hs]; rfl
    · rw [if_neg hs]

theorem abortOn_foldl :
    ∀ (l : List Event) (s : ReqState), Event.abortEv ∉ l →
      (l.foldl step s).abortOn = s.abortOn := by
  intro l
  induction l with
  | nil => intro s _; rfl
  | cons e t ih =>
    intro s hm
    have he : e ≠ Event.abortEv := fun heq => hm (heq ▸ List.mem_cons_self e t)
    have ht : Event.abortEv ∉ t := fun hmem => hm (List.mem_cons_of_mem e hmem)
    calc ((e :: t).foldl step s).abortOn
        = (t.foldl step (step s e)).abortOn := rfl
      _ = (step s e).abortOn := ih (step s e) ht
      _ = s.abortOn := abortOn_step s he

theorem step_response_settles {s : ReqState} (h : ListenersLive s)
    (status : Option Nat) (encoding : Option String) :
    ∃ o, (step s (Event.responseEv status encoding)).settled = some o := by
  rcases hs : s.settled with _ | o
  · have hr : s.responseOn = true := (h hs).1
    simp only [step]
    rw [if_pos hr]
    exact settled_trySettle_isSome s _
  · exact ⟨o, settled_step_of_some hs _⟩

theorem step_error_settles {s : ReqState} (h : ListenersLive s) :
    ∃ o, (step s Event.errorEv).settled = some o := by
  rcases hs : s.settled with _ | o
  · have hr : s.errorOn = true := (h hs).2.1
    simp only [step]
    rw [if_pos hr]
    exact settled_trySettle_isSome _ _
  · exact ⟨o, settled_step_of_some hs _⟩

theorem step_abort_settles {s : ReqState} (h : s.abortOn = true) :
    ∃ o, (step s Event.abortEv).settled = some o := by
  simp only [step]
  rw [if_pos h]
  exact settled_trySettle_isSome _ _

theorem step_timeout_settles {s : ReqState} (h : TimeoutLive s) :
    ∃ o, (step s Event.timeoutEv).settled = some o := by
  rcases h with ⟨o, ho⟩ | ha
  · exact ⟨o, settled_step_of_some ho _⟩
  · simp only [step]
    rw [if_pos ha]
    exact settled_trySettle_isSome _ _

theorem initState_listenersLive (hasAbortSignal : Bool) :
    ListenersLive (initState hasAbortSignal) :=
  fun _ => ⟨rfl, rfl, rfl⟩

theorem run_append (hasAbortSignal : Bool) (l1 l2 : List Event) :
    run hasAbortSignal (l1 ++ l2) = l2.foldl step (run hasAbortSignal l1) :=
  List.foldl_append step (initState hasAbortSignal) l1 l2

theorem step_socket_timeoutLive {s : ReqState} (h : ListenersLive s) :
    TimeoutLive (step s Event.socketEv) := by
  rcases hs : s.settled with _ | o
  · have hso : s.socketOn = true := (h hs).2.2
    simp only [step]
    rw [if_pos hso]
    exact Or.inr rfl
  · exact Or.inl ⟨o, settled_step_of_some hs _⟩

/-- C1: every exchange run by `BaseHttpAdapter.request` settles its
promise exactly once.  For every event sequence: at most one settlement
write ever lands; a settled exchange has exactly one write; no later event
changes the settlement value; and whichever racing settling source fires
first - a response, an error, the abort signal, or the armed idle timeout
after socket acquisition - the promise ends up settled (the `close` event,
which Node fires last, is the only handler that detaches listeners without
settling, hence the no-close side conditions on the prefix). -/
theorem request_settles_exactly_once (hasAbortSignal : Bool) (evs : List Event) :
    (run hasAbortSignal evs).settleWrites ≤ 1
    ∧ (∀ o, (run hasAbortSignal evs).settled = some o →
        (run hasAbortSignal evs).settleWrites = 1)
    ∧ (∀ o evs2, (run hasAbortSignal evs).settled = some o →
        (run hasAbortSignal (evs ++ evs2)).settled = some o)
    ∧ (∀ l1 status encoding l2,
        evs = l1 ++ Event.responseEv status encoding :: l2 →
        Event.closeEv ∉ l1 →
        ∃ o, (run hasAbortSignal evs).settled = some o)
    ∧ (∀ l1 l2, evs = l1 ++ Event.errorEv :: l2 → Event.closeEv ∉ l1 →
        ∃ o, (run hasAbortSignal evs).settled = some o)
    ∧ (∀ l1 l2, evs = l1 ++ Event.abortEv :: l2 → Event.abortEv ∉ l1 →
        hasAbortSignal = true →
        ∃ o, (run hasAbortSignal evs).settled = some o)
    ∧ (∀ l1 l2 l3, evs = l1 ++ Event.socketEv :: l2 ++ Event.timeoutEv :: l3 →
        Event.closeEv ∉ l1 → Event.closeEv ∉ l2 →
        ∃ o, (run hasAbortSignal evs).settled = some o) := by
  have hW := writesInv_run hasAbortSignal evs
  refine ⟨?_, ?_, ?_, ?_, ?_, ?_, ?_⟩
  · rcases hset : (run hasAbortSignal evs).settled with _ | o
    · rw [hW.1 hset]; exact Nat.zero_le 1
    · exact le_of_eq (hW.2 o hset)
  · exact hW.2
  · intro o evs2 h
    rw [run_append]
    exact settled_foldl_of_some evs2 _ h
  · intro l1 status encoding l2 heq hcl
    subst heq
    have hlive : ListenersLive (run hasAbortSignal l1) :=
      listenersLive_foldl l1 (initState hasAbortSignal)
        (initState_listenersLive hasAbortSignal) hcl
    obtain ⟨o, ho⟩ := step_response_settles hlive status encoding
    refine ⟨o, ?_⟩
    have hrun : run hasAbortSignal (l1 ++ Event.responseEv status encoding :: l2)
        = l2.foldl step (step (run hasAbortSignal l1) (Event.responseEv status encoding)) := by
      rw [run_append]
      rfl
    rw [hrun]
    exact settled_foldl_of_some l2 _ ho
  · intro l1 l2 heq hcl
    subst heq
    have hlive : ListenersLive (run hasAbortSignal l1) :=
      listenersLive_foldl l1 (initState hasAbortSignal)
        (initState_listenersLive hasAbortSignal) hcl
    obtain ⟨o, ho⟩ := step_error_settles hlive
    refine ⟨o, ?_⟩
    have hrun : run hasAbortSignal (l1 ++ Event.errorEv :: l2)
        = l2.foldl step (step (run hasAbortSignal l1) Event.errorEv) := by
      rw [run_append]
      rfl
    rw [hrun]
    exact settled_foldl_of_some l2 _ ho
  · intro l1 l2 heq hna hsig
    subst heq
    have habort : (run hasAbortSignal l1).abortOn = true := by
      have := abortOn_foldl l1 (initState hasAbortSignal) hna
      rw [run]
      rw [this]
      simpa [initState] using hsig
    obtain ⟨o, ho⟩ := step_abort_settles habort
    refine ⟨o, ?_⟩
    have hrun : run hasAbortSignal (l1 ++ Event.abortEv :: l2)
        = l2.foldl step (step (run hasAbortSignal l1) Event.abortEv) := by
      rw [run_append]
      rfl
    rw [hrun]
    exact settled_foldl_of_some l2 _ ho
  · intro l1 l2 l3 heq hcl1 hcl2
    subst heq
    have hlive : ListenersLive (run hasAbortSignal l1) :=
      listenersLive_foldl l1 (initState hasAbortSignal)
        (initState_listenersLive hasAbortSignal) hcl1
    have ht2 : TimeoutLive (step (run hasAbortSignal l1) Event.socketEv) :=
      step_socket_timeoutLive hlive
    have ht3 : TimeoutLive (l2.foldl step (step (run hasAbortSignal l1) Event.socketEv)) :=
      timeoutLive_foldl l2 _ ht2 hcl2
    obtain ⟨o, ho⟩ := step_timeout_settles ht3
    refine ⟨o, ?_⟩
    have hrun : run hasAbortSignal (l1 ++ Event.socketEv :: l2 ++ Event.timeoutEv :: l3)
        = l3.foldl step
            (step (l2.foldl step (step (run hasAbortSignal l1) Event.socketEv)) Event.timeoutEv) := by
      simp [run_append, List.foldl_append, List.foldl_cons]
    rw [hrun]
    exact settled_foldl_of_some l3 _ ho

/-- C1 witness: a concrete exchange in which a 200 response with no
content-encoding fires first ends up settled. -/
theorem request_settles_exactly_once_witness :
    ∃ o, (run true [Event.responseEv (some 200) none]).settled = some o :=
  (request_settles_exactly_once true [Event.responseEv (some 200) none]).2.2.2.1
    [] (some 200) none [] rfl (List.not_mem_nil Event.closeEv)

theorem step_error_swallowed {s : ReqState} (he : s.errorOn = false)
    (hw : s.swallowOn = true) :
    step s Event.errorEv = { s with swallowOn := false } := by
  simp only [step]
  rw [if_neg (by simp [he]), if_pos hw]

/-- C8: when the abort signal fires while the exchange is still pending,
the exchange settles with the cancellation failure; a subsequent `error`
event from the now-destroyed request leaves that settlement unchanged and
is consumed by the one-shot noop listener registered by `onAbort`, so it
never becomes an unhandled error. -/
theorem abort_cancels_and_swallows_subsequent_error (l1 : List Event)
    (h1 : (run true l1).settled = none)
    (h2 : (run true l1).abortOn = true) :
    (run true (l1 ++ [Event.abortEv])).settled
        = some (Outcome.failure FailKind.aborted)
    ∧ (run true (l1 ++ [Event.abortEv, Event.errorEv])).settled
        = some (Outcome.failure FailKind.aborted)
    ∧ (run true (l1 ++ [Event.abortEv, Event.errorEv])).uncaughtError
        = (run true l1).uncaughtError := by
  have hs2 : ({ removeRequestListeners (run true l1) with
      abortOn := false, swallowOn := true } : ReqState).settled = none := h1
  have e1 : run true (l1 ++ [Event.abortEv]) = step (run true l1) Event.abortEv := by
    rw [run_append]; rfl
  have e2 : run true (l1 ++ [Event.abortEv, Event.errorEv])
      = step (step (run true l1) Event.abortEv) Event.errorEv := by
    rw [run_append]; rfl
  have c1 : (step (run true l1) Event.abortEv).settled
      = some (Outcome.failure FailKind.aborted) := by
    simp only [step]
    rw [if_pos h2, trySettle_of_none _ hs2]
  have herrOn : (step (run true l1) Event.abortEv).errorOn = false := by
    simp only [step]
    rw [if_pos h2, trySettle_of_none _ hs2]
    rfl
  have hswOn : (step (run true l1) Event.abortEv).swallowOn = true := by
    simp only [step]
    rw [if_pos h2, trySettle_of_none _ hs2]
  have huc : (step (run true l1) Event.abortEv).uncaughtError
      = (run true l1).uncaughtError := by
    simp only [step]
    rw [if_pos h2, trySettle_of_none _ hs2]
    rfl
  refine ⟨?_, ?_, ?_⟩
  · rw [e1]; exact c1
  · rw [e2, step_error_swallowed herrOn hswOn]; exact c1
  · rw [e2, step_error_swallowed herrOn hswOn]; exact huc

/-- C8 witness: the abort signal firing first on a fresh exchange with a
signal attached, followed by an `error` event. -/
theorem abort_cancels_and_swallows_subsequent_error_witness :
    (run true [Event.abortEv]).settled = some (Outcome.failure FailKind.aborted)
    ∧ (run true [Event.abortEv, Event.errorEv]).settled
        = some (Outcome.failure FailKind.aborted)
    ∧ (run true [Event.abortEv, Event.errorEv]).uncaughtError
        = (run true []).uncaughtError :=
  abort_cancels_and_swallows_subsequent_error [] rfl rfl

/-- C2 counterexample: `BaseHttpAdapter.ping` awaits the exchange with no
try/catch, so it does not always resolve to a result value - a failed
exchange makes `ping` itself reject, here shown at a transport failure. -/
theorem ping_can_reject :
    ¬ (∀ exchange : Except FailKind RStream,
        ∃ b : Bool, connPing exchange = Except.ok b) := by
  intro h
  rcases h (Except.error FailKind.transport) with ⟨b, hb⟩
  simp [connPing] at hb

/-- C2 amended: `BaseHttpAdapter.ping` resolves `true` on every
successful exchange, and when the underlying exchange fails it rejects
with exactly the underlying failure instead of resolving to a result
value. -/
theorem ping_true_on_success_rejects_on_failure
    (exchange : Except FailKind RStream) :
    (∀ s, exchange = Except.ok s → connPing exchange = Except.ok true)
    ∧ (∀ e, exchange = Except.error e → connPing exchange = Except.error e) := by
  constructor
  · intro s hs
    rw [hs]
    rfl
  · intro e he
    rw [he]
    rfl

/-- C2 witness: a successful exchange makes `ping` resolve `true`. -/
theorem ping_true_on_success_rejects_on_failure_witness :
    connPing (Except.ok RStream.body) = Except.ok true :=
  (ping_true_on_success_rejects_on_failure (Except.ok RStream.body)).1
    RStream.body rfl

/-- C4 counterexample: inbound decompression is not gated on the
request's `decompress_response` flag.  A 200 response declaring
`content-encoding: gzip` is wrapped in the gunzip pipeline even when
`decompress_response` is false, so the claim that decompression is applied
only when server compression was requested fails. -/
theorem decompression_not_gated_on_request_flag :
    ¬ (∀ (p : RequestParamsM) (status : Option Nat) (encoding : Option String),
        decompressionApplied (respondPhase p status encoding) = true →
        p.decompress_response = true) := by
  intro h
  have hflag := h
    { decompress_response := false, compress_request := false, hasAbortSignal := false }
    (some 200) (some "gzip") (by decide)
  simp at hflag

/-- C4 amended: inbound handling branches only on the declared
`content-encoding`: `gzip` always wraps the body in the gunzip pipeline
(regardless of the request's `decompress_response` flag, which only shapes
the outbound `Accept-Encoding` header), any other declared encoding
settles the exchange as a transport error carrying the unexpected
encoding, and an absent header returns the raw body stream as-is on a
successful status. -/
theorem decompression_follows_content_encoding (p : RequestParamsM)
    (status : Option Nat) (encoding : Option String) :
    (encoding = some "gzip" → respondPhase p status encoding =
        (if isSuccessfulResponse status then Outcome.success (RStream.gunzip RStream.body)
         else Outcome.failure FailKind.server))
    ∧ (∀ e, encoding = some e → e ≠ "gzip" →
        respondPhase p status encoding
          = Outcome.failure (FailKind.encoding ("Unexpected encoding: " ++ e)))
    ∧ (encoding = none → isSuccessfulResponse status = true →
        respondPhase p status encoding = Outcome.success RStream.body) := by
  refine ⟨?_, ?_, ?_⟩
  · intro hg
    subst hg
    simp [respondPhase, onResponseOutcome, decompressResponse]
  · intro e he hne
    subst he
    simp [respondPhase, onResponseOutcome, decompressResponse, hne]
  · intro hn hst
    subst hn
    simp [respondPhase, onResponseOutcome, decompressResponse, hst]

/-- C4 witness: a response declaring the unsupported encoding `br`
settles as a transport error, not as a raw stream. -/
theorem decompression_follows_content_encoding_witness :
    respondPhase
        { decompress_response := true, compress_request := false, hasAbortSignal := false }
        (some 200) (some "br")
      = Outcome.failure (FailKind.encoding ("Unexpected encoding: " ++ "br")) :=
  (decompression_follows_content_encoding
      { decompress_response := true, compress_request := false, hasAbortSignal := false }
      (some 200) (some "br")).2.1 "br" rfl (by decide)

theorem replicate_semi_getElem (m j : Nat) (c : Char) (h : j < m) :
    (List.replicate m c)[j]? = some c := by
  simp [List.getElem?_replicate, h]

theorem lastNonSemiIdx_all_semi (q : List Char) :
    ∀ i, (∀ j, j < i → q[j]? = some ';') → lastNonSemiIdx q i = q.length := by
  intro i
  induction i with
  | zero => intro _; rfl
  | succ j ih =>
    intro h
    have hj : q[j]? = some ';' := h j (Nat.lt_succ_self j)
    simp only [lastNonSemiIdx]
    rw [if_pos hj]
    exact ih (fun m hm => h m (Nat.lt_succ_of_lt hm))

theorem lastNonSemiIdx_skip_semis (q : List Char) (L : Nat) :
    ∀ k, (∀ i, i < k → q[L + 1 + i]? = some ';') →
      lastNonSemiIdx q (L + 1 + k) = lastNonSemiIdx q (L + 1) := by
  intro k
  induction k with
  | zero => intro _; rfl
  | succ k ih =>
    intro h
    have hk : q[L + 1 + k]? = some ';' := h k (Nat.lt_succ_self k)
    rw [show L + 1 + (k + 1) = (L + 1 + k) + 1 from (Nat.add_assoc (L + 1) k 1).symm]
    simp only [lastNonSemiIdx]
    rw [if_pos hk]
    exact ih (fun i hi => h i (Nat.lt_succ_of_lt hi))

/-- C3 counterexample: the statement normalization applied by `exec`
(trim, then `removeTrailingSemi`) leaves a statement consisting only of
semicolons unchanged: the loop never finds a non-semicolon character, the
recorded index keeps its initial value `query.length`, and the original
string is returned.  In particular `;;;` does not normalize to the empty
string and still ends in a separator. -/
theorem removeTrailingSemi_all_semis_unchanged :
    execStatement [';', ';', ';'] = [';', ';', ';']
    ∧ ¬ execStatement [';', ';', ';'] = [] := by
  constructor
  · decide
  · decide

/-- C3 amended: for every statement containing at least one non-semicolon
character - i.e. every statement of the shape `ys ++ [c] ++ semicolons`
with `c` not a semicolon - `removeTrailingSemi` removes the entire maximal
trailing run of semicolons, leaving zero trailing separators; but a
statement consisting solely of semicolons is returned unchanged rather
than reduced to the empty string. -/
theorem removeTrailingSemi_strips_maximal (ys : List Char) (c : Char) (k : Nat)
    (hc : c ≠ ';') :
    removeTrailingSemi (ys ++ c :: List.replicate k ';') = ys ++ [c]
    ∧ (∀ m, removeTrailingSemi (List.replicate m ';') = List.replicate m ';') := by
  constructor
  · have hq : ys ++ c :: List.replicate k ';' = (ys ++ [c]) ++ List.replicate k ';' := by
      simp
    have hlen : (ys ++ c :: List.replicate k ';').length = ys.length + 1 + k := by
      simp only [List.length_append, List.length_cons, List.length_replicate]
      omega
    have hgetc : (ys ++ c :: List.replicate k ';')[ys.length]? = some c := by
      rw [hq]
      rw [List.getElem?_append, if_pos (by simp [List.length_append])]
      rw [List.getElem?_append_right (Nat.le_refl _)]
      simp
    have hsemis : ∀ i, i < k →
        (ys ++ c :: List.replicate k ';')[ys.length + 1 + i]? = some ';' := by
      intro i hi
      rw [hq]
      rw [List.getElem?_append_right (by simp [List.length_append] : (ys ++ [c]).length ≤ ys.length + 1 + i)]
      have hsub : ys.length + 1 + i - (ys ++ [c]).length = i := by
        simp [List.length_append]
      rw [hsub]
      exact replicate_semi_getElem k i _ hi
    have hidx1 : lastNonSemiIdx (ys ++ c :: List.replicate k ';') (ys.length + 1)
        = ys.length + 1 := by
      simp only [lastNonSemiIdx]
      rw [if_neg (by rw [hgetc]; simp [hc])]
    have hidx : lastNonSemiIdx (ys ++ c :: List.replicate k ';')
        (ys ++ c :: List.replicate k ';').length = ys.length + 1 := by
      rw [hlen, lastNonSemiIdx_skip_semis _ ys.length k hsemis, hidx1]
    rcases Nat.eq_zero_or_pos k with hk | hk
    · subst hk
      unfold removeTrailingSemi
      rw [hidx]
      rw [if_neg (by rw [hlen]; omega)]
      simp
    · unfold removeTrailingSemi
      rw [hidx]
      rw [if_pos (by rw [hlen]; omega)]
      rw [hq]
      have htake : (ys ++ [c]).length = ys.length + 1 := by simp
      rw [← htake, List.take_left]
  · intro m
    have hidx : lastNonSemiIdx (List.replicate m ';') (List.replicate m ';').length
        = (List.replicate m ';').length := by
      apply lastNonSemiIdx_all_semi
      intro j hj
      exact replicate_semi_getElem m j _ (by simpa using hj)
    unfold removeTrailingSemi
    rw [hidx]
    simp

/-- C3 witness: the spec's own example - a statement with three trailing
semicolons loses all three, and a lone trailing semicolon run after other
semicolons inside the text is untouched. -/
theorem removeTrailingSemi_strips_maximal_witness :
    removeTrailingSemi (['S', 'E', 'L'] ++ '1' :: List.replicate 3 ';')
      = ['S', 'E', 'L'] ++ ['1'] :=
  (removeTrailingSemi_strips_maximal ['S', 'E', 'L'] '1' 3 (by decide)).1

/-- C5: an insert whose values payload is a finite array with zero
elements never reaches the connection - `ClickHouseClient.insert` returns
the short-circuit result, with `executed` false and an empty query id,
before validation, encoding or any network call. -/
theorem insert_empty_array_short_circuits {T : Type} (table : String)
    (columns : Option InsertColumnsM) (format : Option String)
    (query_id : Option String) (generated : String) :
    clientInsert table (InsertValuesM.arr ([] : List T)) columns format query_id generated
      = InsertCall.noCall { executed := false, query_id := "" } := by
  simp [clientInsert, isEmptyArrayValues]

/-- C6: the column clause generated by `getInsertQuery` is a
parenthesized list for an explicit non-empty column array, a `* EXCEPT`
clause for a non-empty except list, and absent otherwise - including the
silently ignored explicitly supplied empty array and empty except list -
always inside the statement `INSERT INTO table clause FORMAT format`. -/
theorem insert_column_clause (table format : String) :
    (∀ cols : List String, cols ≠ [] →
        getInsertQuery table (some (InsertColumnsM.columnsArr cols)) format
          = "INSERT INTO " ++ table.trim
              ++ (" (" ++ String.intercalate ", " cols ++ ")")
              ++ " FORMAT " ++ format)
    ∧ (∀ cols : List String, cols ≠ [] →
        getInsertQuery table (some (InsertColumnsM.columnsExcept cols)) format
          = "INSERT INTO " ++ table.trim
              ++ (" (* EXCEPT (" ++ String.intercalate ", " cols ++ "))")
              ++ " FORMAT " ++ format)
    ∧ getInsertQuery table none format
        = "INSERT INTO " ++ table.trim ++ " FORMAT " ++ format
    ∧ getInsertQuery table (some (InsertColumnsM.columnsArr [])) format
        = "INSERT INTO " ++ table.trim ++ " FORMAT " ++ format
    ∧ getInsertQuery table (some (InsertColumnsM.columnsExcept [])) format
        = "INSERT INTO " ++ table.trim ++ " FORMAT " ++ format := by
  refine ⟨?_, ?_, ?_, ?_, ?_⟩
  · intro cols h
    simp [getInsertQuery, List.length_pos.mpr h]
  · intro cols h
    simp [getInsertQuery, List.length_pos.mpr h]
  · simp [getInsertQuery]
  · simp [getInsertQuery]
  · simp [getInsertQuery]

/-- C6 witness: the three concrete examples from the spec, at table `t`
and format `JSONEachRow`. -/
theorem insert_column_clause_witness :
    getInsertQuery "t" (some (InsertColumnsM.columnsArr ["a", "b"])) "JSONEachRow"
      = "INSERT INTO " ++ ("t" : String).trim
          ++ (" (" ++ String.intercalate ", " ["a", "b"] ++ ")")
          ++ " FORMAT " ++ "JSONEachRow"
    ∧ getInsertQuery "t" (some (InsertColumnsM.columnsExcept ["a", "b"])) "JSONEachRow"
      = "INSERT INTO " ++ ("t" : String).trim
          ++ (" (* EXCEPT (" ++ String.intercalate ", " ["a", "b"] ++ "))")
          ++ " FORMAT " ++ "JSONEachRow" :=
  ⟨(insert_column_clause "t" "JSONEachRow").1 ["a", "b"] (by decide),
   (insert_column_clause "t" "JSONEachRow").2.1 ["a", "b"] (by decide)⟩

/-- C7: `ClickHouseClient.query` appends a literal output-format
directive derived from the requested format to the normalized statement,
and when no format is requested the defaulted statement ends with a
newline followed by `FORMAT JSON`. -/
theorem query_appends_format_directive (q : List Char) :
    (∀ fmt : List Char,
        ('\n' :: ("FORMAT ".toList ++ fmt)) <:+ clientQueryStatement q (some fmt))
    ∧ "\nFORMAT JSON".toList <:+ clientQueryStatement q none := by
  have hfl : (" \nFORMAT ").toList = ' ' :: '\n' :: ("FORMAT ").toList := by decide
  have hgen : ∀ fmt : List Char,
      ('\n' :: ("FORMAT ".toList ++ fmt)) <:+ clientQueryStatement q (some fmt) := by
    intro fmt
    refine ⟨removeTrailingSemi (trimChars q) ++ [' '], ?_⟩
    show (removeTrailingSemi (trimChars q) ++ [' '])
        ++ ('\n' :: ("FORMAT ".toList ++ fmt)) = clientQueryStatement q (some fmt)
    simp [clientQueryStatement, formatQuery, hfl, List.append_assoc]
  refine ⟨hgen, ?_⟩
  have hjson : ("\nFORMAT JSON").toList
      = '\n' :: (("FORMAT ").toList ++ ("JSON").toList) := by decide
  have h2 := hgen ("JSON").toList
  rw [hjson]
  exact h2

theorem lookup_append (k : String) :
    ∀ (a b : List (String × String)),
      (a ++ b).lookup k = ((a.lookup k).orElse (fun _ => b.lookup k)) := by
  intro a b
  induction a with
  | nil => simp [List.lookup]
  | cons kv t ih =>
    rcases kv with ⟨k1, v1⟩
    by_cases hk : (k == k1) = true
    · simp [List.lookup, hk]
    · simp only [List.cons_append, List.lookup, Bool.not_eq_true] at hk ⊢
      rw [hk]
      simpa [hk] using ih

/-- C9: for every call routed through `withClientQueryParams` (query,
exec, command and insert all spread its result into the connection call),
the settings handed to the connection resolve key-by-key to the per-call
setting when present and otherwise to the client-level constructed
default; the session id fixed at client construction is attached no
matter what per-call `session_id` was supplied; and the per-call query id
passes through untouched. -/
theorem client_settings_merge_and_session (c : ClientState)
    (params : BaseQueryParamsM) :
    (∀ k, ((withClientQueryParams c params).clickhouse_settings).lookup k
        = ((params.clickhouse_settings.lookup k).orElse
            (fun _ => c.clientClickHouseSettings.lookup k)))
    ∧ (∀ sid, (withClientQueryParams c { params with session_id := sid }).session_id
        = c.sessionId)
    ∧ (withClientQueryParams c params).query_id = params.query_id := by
  refine ⟨?_, ?_, ?_⟩
  · intro k
    show (objSpread c.clientClickHouseSettings params.clickhouse_settings).lookup k = _
    unfold objSpread
    exact lookup_append k params.clickhouse_settings c.clientClickHouseSettings
  · intro sid
    rfl
  · rfl

/-- C10: the query id attached to a connection-level query, exec or
insert is the caller-supplied one exactly when it is a non-empty string;
an absent query id or an explicitly supplied empty string is replaced by
the freshly generated identifier (`uuid.v4()` in the source, passed here
as `generated`). -/
theorem query_id_nonempty_or_generated (query_id : Option String)
    (generated : String) :
    (∀ s, query_id = some s → s ≠ "" → getQueryId query_id generated = s)
    ∧ (query_id = none → getQueryId query_id generated = generated)
    ∧ getQueryId (some "") generated = generated := by
  refine ⟨?_, ?_, ?_⟩
  · intro s hs hne
    subst hs
    simp [getQueryId, hne]
  · intro hn
    subst hn
    rfl
  · rfl

/-- C10 witness: a caller-supplied non-empty id survives, while the empty
string is replaced. -/
theorem query_id_nonempty_or_generated_witness :
    getQueryId (some "q-1") "generated-uuid" = "q-1"
    ∧ getQueryId (some "") "generated-uuid" = "generated-uuid" :=
  ⟨(query_id_nonempty_or_generated (some "q-1") "generated-uuid").1 "q-1" rfl (by decide),
   (query_id_nonempty_or_generated (some "") "generated-uuid").2.2⟩
